import Mathlib

/-!
Verification development for the markdownNavigator NVDA add-on.

The Python source is shallowly embedded over `List Nat`: a document text is
the list of its Unicode code points, so Python string slicing becomes
`take`/`drop`, `len` becomes `List.length`, and the UTF-16 length of a chunk
(`len(chunk.encode("utf-16-le")) // 2`) becomes the sum of per-code-point
UTF-16 code-unit counts.  Code points used below: 10 = LF, 13 = CR,
32 = space, 35 = `#`, 92 = backslash, 96 = backtick, 124 = `|`.
-/

namespace MarkdownNavigator

/-- Whitespace test for a Unicode code point, as used both by Python's
`str.strip` and by the `\s` class of Python's `re` module in Unicode mode
(both are `Py_UNICODE_ISSPACE`). -/
def pyIsSpace (c : Nat) : Bool :=
  (decide (9 ≤ c) && decide (c ≤ 13)) ||
  (decide (28 ≤ c) && decide (c ≤ 32)) ||
  c == 133 || c == 160 || c == 5760 ||
  (decide (8192 ≤ c) && decide (c ≤ 8202)) ||
  c == 8232 || c == 8233 || c == 8239 || c == 8287 || c == 12288

/-- Python `str.strip()`: remove leading and trailing whitespace. -/
def pyStrip (s : List Nat) : List Nat :=
  ((s.dropWhile pyIsSpace).reverse.dropWhile pyIsSpace).reverse

/-- Python `str.find`: the smallest start index at which `needle` occurs as a
contiguous substring of `hay`, or `-1` when it does not occur. -/
def pyFind (hay needle : List Nat) : Int :=
  match (List.range (hay.length + 1)).find?
      (fun i => (hay.drop i).take needle.length == needle) with
  | some i => (i : Int)
  | none => -1

/-- Number of UTF-16 code units used to encode one code point. -/
def utf16CharLen (c : Nat) : Nat := if c < 65536 then 1 else 2

/-- UTF-16 code-unit length of a string, i.e.
`len(s.encode("utf-16-le")) // 2` in the source. -/
def utf16Len (s : List Nat) : Nat := (s.map utf16CharLen).sum

/-- Iteration of `NEWLINE_REGEX = re.compile(r"\r?\n|\r")` over the text
starting at absolute position `i`: the list of the `m.end()` offsets of the
successive non-overlapping matches, scanning left to right (`\r\n` counts as
one separator, else a bare `\n` or lone `\r`). -/
def splitLinesAux : List Nat → Nat → List Nat
  | [], _ => []
  | 13 :: 10 :: rest, i => (i + 2) :: splitLinesAux rest (i + 2)
  | 13 :: rest, i => (i + 1) :: splitLinesAux rest (i + 1)
  | 10 :: rest, i => (i + 1) :: splitLinesAux rest (i + 1)
  | _ :: rest, i => splitLinesAux rest (i + 1)

/-- `document._splitLines` (document.py lines 32-37): start offsets of every
line (offset 0, then the end offset of each line-separator match). -/
def _splitLines (text : List Nat) : List Nat := 0 :: splitLinesAux text 0

/-- `bisect.bisect_right` applied to a sorted offsets list: the length of
the maximal prefix of elements `≤ x`, i.e. the insertion point to the right
of existing entries equal to `x`. -/
def bisectRight (l : List Nat) (x : Nat) : Nat :=
  (l.takeWhile (fun o => decide (o ≤ x))).length

/-- Caret-line lookup from `FastDocumentManager.__enter__` (document.py lines
108-110): `bisect.bisect_right(pyOffsets, caretOffset) - 1`, clamped below
at 0 (the source's `if self.lineIndex < 0: self.lineIndex = 0`). -/
def caretLine (py : List Nat) (caretOffset : Nat) : Nat :=
  let li0 : Int := (bisectRight py caretOffset : Int) - 1
  if li0 < 0 then 0 else li0.toNat

/-- The snapshot state of `document.FastDocumentManager` (the index-carrying
fields; the host handles `obj`, `document`, `originalCaret` are external
collaborators and appear as explicit inputs of the operations that need
them). -/
structure FastDocumentManager where
  documentText : List Nat
  pyOffsets : List Nat
  utf16Offsets : List Nat
  lineIndex : Nat
  originalLineIndex : Nat
  nLines : Nat
  initialCaretOffset : Nat
deriving DecidableEq

/-- `FastDocumentManager.__enter__` (document.py lines 73-114): split the
document text at line separators, record the character (Python) start offset
and the running UTF-16 start offset of every line, then locate the caret's
line by `bisect_right` over the character offsets.  `caretOffset` is
`len(pretext.text)`, the caret's character distance from document start.
The source accumulates each chunk's UTF-16 length into a running total;
since UTF-16 lengths add over concatenation, the running total stored for a
line starting at character offset `o` equals `utf16Len` of the length-`o`
prefix of the text. -/
def enter (text : List Nat) (caretOffset : Nat) : FastDocumentManager :=
  let py := _splitLines text
  let u16 := py.map (fun o => utf16Len (text.take o))
  let li := caretLine py caretOffset
  { documentText := text
    pyOffsets := py
    utf16Offsets := u16
    lineIndex := li
    originalLineIndex := li
    nLines := py.length
    initialCaretOffset := caretOffset }

/-- `FastDocumentManager.move` (document.py lines 119-128): move the cursor
by `increment` lines; if the target index leaves `[0, nLines)` return 0 and
leave the state unchanged, else set the cursor and return `increment`. -/
def move (fdm : FastDocumentManager) (increment : Int) :
    FastDocumentManager × Int :=
  let newIndex : Int := (fdm.lineIndex : Int) + increment
  if newIndex < 0 ∨ (fdm.nLines : Int) ≤ newIndex then (fdm, 0)
  else ({ fdm with lineIndex := newIndex.toNat }, increment)

/-- A sequence of `move` calls applied to a snapshot, used to state that the
offset tables survive any sequence of cursor motions.  (`getText` and
`getLineOffset` are read-only queries in the source and are pure functions
here, so they cannot change the tables at all.) -/
def applyMoves (fdm : FastDocumentManager) (increments : List Int) :
    FastDocumentManager :=
  increments.foldl (fun s d => (move s d).1) fdm

/-- `FastDocumentManager.getText` (document.py lines 130-141): the text of
line `lineIndex`, i.e.
`documentText[pyOffsets[lineIndex]:pyOffsets[lineIndex+1]]` (document end
when `lineIndex + 1` is out of range, caught as `IndexError` in the source);
out-of-range line indices give `""`.  The source's `lineIndex < 0` check is
vacuous over `Nat`. -/
def getText (fdm : FastDocumentManager) (lineIndex : Nat) : List Nat :=
  if fdm.nLines ≤ lineIndex then []
  else
    let startOffset := fdm.pyOffsets.getD lineIndex 0
    let endOffset := fdm.pyOffsets.getD (lineIndex + 1) fdm.documentText.length
    (fdm.documentText.take endOffset).drop startOffset

/-- `FastDocumentManager.getLineOffset` (document.py lines 143-147):
character start offset of line `lineIndex`, or the document length past the
last line. -/
def getLineOffset (fdm : FastDocumentManager) (lineIndex : Nat) : Nat :=
  if lineIndex < fdm.nLines then fdm.pyOffsets.getD lineIndex 0
  else fdm.documentText.length

/-- `patterns.RE_HEADING = re.compile(r"^\s*#{1,6}\s")` tested with
`regex.search(text)`: since the pattern is anchored at `^` and the flags do
not include `re.MULTILINE`, `search` succeeds exactly when a match starts at
offset 0, i.e. after the leading whitespace run there are 1 to 6 `#`
followed by one whitespace character.  (More than 6 consecutive `#` cannot
match: every shorter `#` run is followed by another `#`, not by `\s`.) -/
def matchHeading (s : List Nat) : Bool :=
  let t := s.dropWhile pyIsSpace
  let k := (t.takeWhile (fun c => c == 35)).length
  decide (1 ≤ k) && decide (k ≤ 6) && pyIsSpace (t.getD k 0)

/-- `patterns.RE_CODE_BLOCK = re.compile(r"^\s*`{3,}")` tested with
`.match(text)`: after the leading whitespace run there are at least 3
backticks. -/
def matchCodeBlock (s : List Nat) : Bool :=
  let t := s.dropWhile pyIsSpace
  decide (3 ≤ (t.takeWhile (fun c => c == 96)).length)

/-- Fence classification used by `_navigateCodeFast` (navigator.py lines
359, 426, 435) and `navigate_code_legacy` (legacy.py lines 277, 317):
`has_info = len(text.strip()) > 3`; a fence line with `has_info` is treated
as an opening fence, a bare fence (`≤ 3` trimmed characters) as a closing
fence. -/
def fenceHasInfo (s : List Nat) : Bool := decide (3 < (pyStrip s).length)

/-- The length of the trailing info text of a fence line read the way the
spec's words suggest: the trimmed text that follows the leading whitespace
and the backtick run (for \"```python\" this is \"python\", length 6).  The
source never computes this quantity; it is defined here only to state the
spec's classification rule and compare it against `fenceHasInfo`. -/
def fenceInfoLen (s : List Nat) : Nat :=
  (pyStrip ((s.dropWhile pyIsSpace).dropWhile (fun c => c == 96))).length

/-- Decision from `_navigateCodeFast` (navigator.py lines 354-367) of
whether the scan should skip over a whole code block, taken when the current
line is a fence: moving down always skips; moving up skips only from a
closing fence (no info text), since from an opening fence the block lies
ahead, not behind. -/
def shouldSkipBlock (currentLineText : List Nat) (direction : Int) : Bool :=
  if direction = 1 then true
  else if fenceHasInfo currentLineText then false else true

/-- One parsed Markdown table cell, the dict built by `_parse_table_row`
(navigator.py lines 513-521, legacy.py lines 367-373).  `stop` is the
source's key `'end'` (a Lean keyword).  `content_start`/`content_end` are
`Int` because the source computes them with `str.find`, whose Python result
type includes `-1`. -/
structure TableCell where
  start : Nat
  stop : Nat
  content_start : Int
  content_end : Int
  text : List Nat
deriving DecidableEq

/-- Iteration of `re.compile(r"(?<!\\)\|").finditer(text)`: the start
offsets of every `|` not immediately preceded by a backslash, in increasing
order (each match is a single character, so the matches are exactly these
positions). -/
def unescapedPipes (text : List Nat) : List Nat :=
  (List.range text.length).filter
    (fun i => text.getD i 0 == 124 && (i == 0 || !(text.getD (i - 1) 0 == 92)))

/-- Body of the loop of `_parse_table_row` for one pair of consecutive
unescaped pipes at offsets `startPipe < endPipe`. -/
def mkTableCell (text : List Nat) (startPipe endPipe : Nat) : TableCell :=
  let cell_start := startPipe + 1
  let cell_end := endPipe
  let cell_text := (text.take cell_end).drop cell_start
  let stripped := pyStrip cell_text
  let content_start : Int :=
    if stripped.isEmpty then (cell_start : Int)
    else (cell_start : Int) + pyFind cell_text stripped
  { start := cell_start
    stop := cell_end
    content_start := content_start
    content_end := content_start + stripped.length
    text := stripped }

/-- `_parse_table_row` (navigator.py lines 491-522 and the identical
legacy.py lines 349-374): one cell for every pair of consecutive unescaped
pipes.  The source's early `return []` for no matches is subsumed: with 0
(or 1) matches `range(len(matches) - 1)` is already empty (`Nat`
subtraction truncates exactly like Python's empty `range` on a negative
bound). -/
def _parse_table_row (text : List Nat) : List TableCell :=
  let ms := unescapedPipes text
  (List.range (ms.length - 1)).map
    (fun i => mkTableCell text (ms.getD i 0) (ms.getD (i + 1) 0))

/-- The scan loop of `_navigateFast` for non-focus constructs (navigator.py
lines 221-233): `while fdm.move(direction) != 0:` step first, then test the
stepped-to line with the pattern; stop with the found line index, or with
`none` when `move` returns 0 at the document boundary (the not-found branch,
which emits the message).  `fuel` bounds the recursion; any `fuel ≥ nLines`
is enough since every iteration moves the cursor one step inside
`[0, nLines)`. -/
def scanNonFocus (re : List Nat → Bool) (direction : Int) :
    Nat → FastDocumentManager → Option Nat
  | 0, _ => none
  | fuel + 1, fdm =>
    let stepped := move fdm direction
    if stepped.2 = 0 then none
    else if re (getText stepped.1 stepped.1.lineIndex) then
      some stepped.1.lineIndex
    else scanNonFocus re direction fuel stepped.1

/-- The Python exception classes that the navigation code distinguishes. -/
inductive PyExn where
  | notImplementedError
  | lookupError
  | comError
  | runtimeError
  | valueError
  | attributeError
deriving DecidableEq

/-- Outcome of one navigation command that did not raise: it moved the
caret and spoke, emitted an informational message, or forwarded the raw
gesture to the host (`gesture.send()`). -/
inductive Outcome where
  | navigated
  | message
  | passThrough
deriving DecidableEq

/-- The exception classes caught around the fast path by `_navigate`
(navigator.py line 106): `(RuntimeError, NotImplementedError, LookupError,
COMError)`. -/
def fastCaught (e : PyExn) : Bool :=
  e == .runtimeError || e == .notImplementedError ||
  e == .lookupError || e == .comError

/-- The exception classes caught around `obj.makeTextInfo(POSITION_CARET)`
by `navigate_legacy` (legacy.py line 121): `(NotImplementedError,
LookupError)` — and nothing else. -/
def legacyCaretCaught (e : PyExn) : Bool :=
  e == .notImplementedError || e == .lookupError

/-- Exception structure of `legacy.navigate_legacy` (legacy.py lines
119-124): obtaining the caret position may raise (`caretResult`); a caught
class leads to `gesture.send()` (pass-through), an uncaught class
propagates; otherwise the body runs with whatever outcome or exception the
host gives it (`body`). -/
def navigate_legacy (caretResult : Except PyExn Unit)
    (body : Except PyExn Outcome) : Except PyExn Outcome :=
  match caretResult with
  | .error e => if legacyCaretCaught e then .ok Outcome.passThrough else .error e
  | .ok _ => body

/-- Exception structure of `MarkdownEditorOverlay._navigate` (navigator.py
lines 100-110): with browse mode off the gesture is forwarded; otherwise
the fast path runs (`fast`, an outcome or an exception determined by the
host), a caught exception class falls back to the legacy path, an uncaught
one propagates out of the script handler. -/
def _navigate (browseMode : Bool) (fast : Except PyExn Outcome)
    (legacyCaret : Except PyExn Unit) (legacyBody : Except PyExn Outcome) :
    Except PyExn Outcome :=
  if !browseMode then .ok Outcome.passThrough
  else
    match fast with
    | .ok o => .ok o
    | .error e =>
      if fastCaught e then navigate_legacy legacyCaret legacyBody
      else .error e

/-- The module-level names defined by patterns.py (lines 9-27). -/
def patternsModuleNames : List String :=
  ["RE_HEADING", "RE_LIST_ITEM", "RE_BLOCKQUOTE", "RE_TABLE", "RE_CODE_BLOCK",
   "RE_INLINE_CODE", "RE_LINK", "RE_IMAGE", "RE_SEPARATOR", "RE_CHECKBOX",
   "RE_BOLD", "RE_ITALIC", "RE_STRIKETHROUGH", "RE_FOOTNOTE",
   "getHeadingRegex"]

/-- Python attribute lookup on the patterns module: `AttributeError` when
the name is not defined at module level. -/
def patternsGetattr (name : String) : Except PyExn Unit :=
  if name ∈ patternsModuleNames then .ok () else .error PyExn.attributeError

/-- `script_nextMathFormula` / `script_prevMathFormula` (navigator.py lines
754-778): the handler body is a single call
`self._navigate(gesture, patterns.RE_LATEX_MATH, ...)`; the attribute
`patterns.RE_LATEX_MATH` is evaluated while building the arguments, before
`_navigate` (and its `try`) is ever entered, and the handler itself has no
exception handling of its own. -/
def script_nextMathFormula (browseMode : Bool) (fast : Except PyExn Outcome)
    (legacyCaret : Except PyExn Unit) (legacyBody : Except PyExn Outcome) :
    Except PyExn Outcome :=
  match patternsGetattr ("RE_LATEX_MATH") with
  | .error e => .error e
  | .ok _ => _navigate browseMode fast legacyCaret legacyBody

/-- A host text position as the legacy path sees it on an offsets-based
control: a start/end pair of character offsets into the document.  `stop`
is the end offset (`end` is a Lean keyword). -/
structure TI where
  start : Nat
  stop : Nat
deriving DecidableEq

/-- Host `expand(textInfos.UNIT_LINE)` on an offsets-based control: both
endpoints are replaced by the boundaries of the line containing the start
offset (NVDA's `OffsetsTextInfo.expand` computes the unit offsets of
`_startOffset`).  The line structure is the same `\r\n`/`\n`/`\r` splitting
the snapshot engine uses. -/
def expandLine (doc : List Nat) (ti : TI) : TI :=
  let py := _splitLines doc
  let i := caretLine py ti.start
  ⟨py.getD i 0, py.getD (i + 1) doc.length⟩

/-- Plan B of `legacy._step_line` (legacy.py lines 77-106), operating on the
original position after the ghost-move reset: collapse to the trailing edge
(forward) or leading edge (backward), step exactly one character (a step
that the host refuses at a document edge, returning 0, fails the recovery),
re-expand to line granularity, then verify: forward requires the result
strictly past the original start and not before the collapsed anchor point;
backward requires the result strictly before the original start.  The
character step and the endpoint comparisons are exact offset arithmetic on
the control; only the line-granularity `move` (Plan A) is the operation
with known defects. -/
def planB (doc : List Nat) (direction : Int) (ti0 : TI) : Bool × TI :=
  if direction = 1 then
    let anchor : TI := ⟨ti0.stop, ti0.stop⟩
    if ti0.stop < doc.length then
      let stepped : TI := ⟨ti0.stop + 1, ti0.stop + 1⟩
      let ti3 := expandLine doc stepped
      if ti3.start ≤ ti0.start then (false, ti3)
      else if ti3.start < anchor.start then (false, ti3)
      else (true, ti3)
    else (false, anchor)
  else
    let anchor : TI := ⟨ti0.start, ti0.start⟩
    if 0 < ti0.start then
      let stepped : TI := ⟨ti0.start - 1, ti0.start - 1⟩
      let ti3 := expandLine doc stepped
      if ti0.start ≤ ti3.start then (false, ti3) else (true, ti3)
    else (false, anchor)

/-- `legacy._step_line` (legacy.py lines 37-106).  `lineMove` is the host's
`ti.move(textInfos.UNIT_LINE, direction)`: it reports a moved count and the
resulting position, or raises.  Plan A trusts the host only after verifying
physical movement of the line-expanded result against the original
position; a non-zero report without movement (ghost move) resets the
position to the original endpoints and runs Plan B; a zero report is
EOF/BOF; a raised `RuntimeError`/`ValueError`/`COMError` is caught and
fails the step immediately (no recovery), any other exception propagates. -/
def _step_line (doc : List Nat) (lineMove : TI → Int → Except PyExn (Int × TI))
    (direction : Int) (ti0 : TI) : Except PyExn (Bool × TI) :=
  match lineMove ti0 direction with
  | .error e =>
    if e = PyExn.runtimeError ∨ e = PyExn.valueError ∨ e = PyExn.comError then
      .ok (false, ti0)
    else .error e
  | .ok (res, ti1) =>
    if res = 0 then .ok (false, ti1)
    else
      let ti2 := expandLine doc ti1
      let moved :=
        if direction = 1 then decide (ti0.start < ti2.start)
        else decide (ti2.start < ti0.start)
      if moved then .ok (true, ti2)
      else .ok (planB doc direction ti0)

/-- Concatenation of the half-open slices of `doc` between consecutive
offsets, starting at `a` and ending with the slice from the last offset to
the document end; used to relate line-by-line `getText` to the whole
text. -/
def concatSlices (doc : List Nat) : Nat → List Nat → List Nat
  | a, [] => doc.drop a
  | a, b :: os => ((doc.take b).drop a) ++ concatSlices doc b os

/-- The document of the next-heading scenario:
`"# Title\n\nSome text\n## Sub\n"`. -/
def scenarioDoc : List Nat :=
  [35, 32, 84, 105, 116, 108, 101, 10,
   10,
   83, 111, 109, 101, 32, 116, 101, 120, 116, 10,
   35, 35, 32, 83, 117, 98, 10]

/-- The table row of the cell-parsing scenario: `"| a | b\|c | d |"`. -/
def scenarioRow : List Nat :=
  [124, 32, 97, 32, 124, 32, 98, 92, 124, 99, 32, 124, 32, 100, 32, 124]

/-- The fence line `"```python"` of the code-fence scenario. -/
def fencePython : List Nat := [96, 96, 96, 112, 121, 116, 104, 111, 110]

/-- The bare fence line `"```"` of the code-fence scenario. -/
def fenceBare : List Nat := [96, 96, 96]

/-- The fence line `"```a"`: trimmed length 4, info text `"a"` of length 1. -/
def fenceShortInfo : List Nat := [96, 96, 96, 97]

example : _splitLines [97, 10, 98] = [0, 2] := by decide
example : _splitLines [97, 13, 10, 98, 13, 99] = [0, 3, 5] := by decide
example : (enter [97, 10, 98] 2).lineIndex = 1 := by decide
example : getText (enter [97, 10, 98] 0) 0 = [97, 10] := by decide
example : getText (enter [97, 10, 98] 0) 1 = [98] := by decide
example : utf16Len [128512] = 2 := by decide
example : _splitLines scenarioDoc = [0, 8, 9, 19, 26] := by decide
example : matchHeading (getText (enter scenarioDoc 0) 3) = true := by decide
example : (_parse_table_row scenarioRow).length = 3 := by decide


/-! ## Structural lemmas about line splitting -/

theorem splitLinesAux_mem_gt (rest : List Nat) (i : Nat) :
    ∀ o ∈ splitLinesAux rest i, i < o := by
  induction rest, i using splitLinesAux.induct with
  | case1 x => simp [splitLinesAux]
  | case2 rest i ih =>
    intro o ho
    rw [splitLinesAux] at ho
    rcases List.mem_cons.mp ho with rfl | ho
    · omega
    · have := ih o ho; omega
  | case3 rest i hne ih =>
    intro o ho
    rw [splitLinesAux] at ho
    · rcases List.mem_cons.mp ho with rfl | ho
      · omega
      · have := ih o ho; omega
    · exact hne
  | case4 rest i ih =>
    intro o ho
    rw [splitLinesAux] at ho
    rcases List.mem_cons.mp ho with rfl | ho
    · omega
    · have := ih o ho; omega
  | case5 head rest i h1 h2 h3 ih =>
    intro o ho
    rw [splitLinesAux] at ho
    · have := ih o ho; omega
    · exact h1
    · exact h2
    · exact h3

theorem splitLinesAux_mem_le (rest : List Nat) (i : Nat) :
    ∀ o ∈ splitLinesAux rest i, o ≤ i + rest.length := by
  induction rest, i using splitLinesAux.induct with
  | case1 x => simp [splitLinesAux]
  | case2 rest i ih =>
    intro o ho
    rw [splitLinesAux] at ho
    rcases List.mem_cons.mp ho with rfl | ho
    · simp only [List.length_cons]; omega
    · have := ih o ho; simp only [List.length_cons]; omega
  | case3 rest i hne ih =>
    intro o ho
    rw [splitLinesAux] at ho
    · rcases List.mem_cons.mp ho with rfl | ho
      · simp only [List.length_cons]; omega
      · have := ih o ho; simp only [List.length_cons]; omega
    · exact hne
  | case4 rest i ih =>
    intro o ho
    rw [splitLinesAux] at ho
    rcases List.mem_cons.mp ho with rfl | ho
    · simp only [List.length_cons]; omega
    · have := ih o ho; simp only [List.length_cons]; omega
  | case5 head rest i h1 h2 h3 ih =>
    intro o ho
    rw [splitLinesAux] at ho
    · have := ih o ho; simp only [List.length_cons]; omega
    · exact h1
    · exact h2
    · exact h3

theorem splitLinesAux_chain (rest : List Nat) (i : Nat) :
    List.Chain' (· < ·) (i :: splitLinesAux rest i) := by
  induction rest, i using splitLinesAux.induct with
  | case1 x => simp [splitLinesAux]
  | case2 rest i ih =>
    rw [splitLinesAux]
    exact List.chain'_cons.mpr ⟨by omega, ih⟩
  | case3 rest i hne ih =>
    rw [splitLinesAux]
    · exact List.chain'_cons.mpr ⟨by omega, ih⟩
    · exact hne
  | case4 rest i ih =>
    rw [splitLinesAux]
    exact List.chain'_cons.mpr ⟨by omega, ih⟩
  | case5 head rest i h1 h2 h3 ih =>
    rw [splitLinesAux]
    · refine List.chain'_cons'.mpr ⟨?_, (List.chain'_cons'.mp ih).2⟩
      intro y hy
      have hmem : y ∈ splitLinesAux rest (i + 1) := List.mem_of_mem_head? hy
      have := splitLinesAux_mem_gt rest (i + 1) y hmem
      omega
    · exact h1
    · exact h2
    · exact h3

theorem splitLines_chain (text : List Nat) :
    List.Chain' (· < ·) (_splitLines text) :=
  splitLinesAux_chain text 0

theorem splitLines_mem_le (text : List Nat) :
    ∀ o ∈ _splitLines text, o ≤ text.length := by
  intro o ho
  rcases List.mem_cons.mp ho with rfl | ho
  · omega
  · have := splitLinesAux_mem_le text 0 o ho; omega

/-! ## Slice reconstruction -/

theorem concatSlices_drop_cons (doc : List Nat) (i : Nat) (hi : i < doc.length)
    (os : List Nat) (hos : ∀ b ∈ os, i < b) :
    concatSlices doc i os = doc[i] :: concatSlices doc (i + 1) os := by
  cases os with
  | nil => simp only [concatSlices]; exact List.drop_eq_getElem_cons hi
  | cons b os =>
    simp only [concatSlices]
    have hib : i < b := hos b (List.mem_cons_self b os)
    have hlen : i < (doc.take b).length := by
      simp only [List.length_take]; omega
    have h1 : (doc.take b).drop i = (doc.take b)[i] :: (doc.take b).drop (i + 1) :=
      List.drop_eq_getElem_cons hlen
    have h2 : (doc.take b)[i] = doc[i] := by
      simp [List.getElem_take]
    rw [h1, h2, List.cons_append]

theorem concatSlices_splitLinesAux (doc : List Nat) :
    ∀ (rest : List Nat) (i : Nat), doc.drop i = rest →
      concatSlices doc i (splitLinesAux rest i) = rest := by
  intro rest i
  induction rest, i using splitLinesAux.induct with
  | case1 x => intro h; simpa [splitLinesAux, concatSlices] using h
  | case2 rest i ih =>
    intro h
    have hd2 : doc.drop (i + 2) = rest := by
      have : (doc.drop i).drop 2 = doc.drop (i + 2) := List.drop_drop 2 i doc
      rw [← this, h]
      rfl
    rw [splitLinesAux]
    simp only [concatSlices]
    rw [ih hd2]
    have : (doc.take (i + 2)).drop i = ((doc.drop i).take 2) := by
      rw [List.drop_take]; congr 1; omega
    rw [this, h]
    rfl
  | case3 rest i hne ih =>
    intro h
    rw [splitLinesAux]
    · have hd1 : doc.drop (i + 1) = rest := by
        have : (doc.drop i).drop 1 = doc.drop (i + 1) := List.drop_drop 1 i doc
        rw [← this, h]; rfl
      simp only [concatSlices]
      rw [ih hd1]
      have : (doc.take (i + 1)).drop i = ((doc.drop i).take 1) := by
        rw [List.drop_take]; congr 1; omega
      rw [this, h]
      rfl
    · exact hne
  | case4 rest i ih =>
    intro h
    rw [splitLinesAux]
    have hd1 : doc.drop (i + 1) = rest := by
      have : (doc.drop i).drop 1 = doc.drop (i + 1) := List.drop_drop 1 i doc
      rw [← this, h]; rfl
    simp only [concatSlices]
    rw [ih hd1]
    have : (doc.take (i + 1)).drop i = ((doc.drop i).take 1) := by
      rw [List.drop_take]; congr 1; omega
    rw [this, h]
    rfl
  | case5 head rest i h1 h2 h3 ih =>
    intro h
    rw [splitLinesAux]
    · have hilen : i < doc.length := by
        by_contra hc
        rw [List.drop_eq_nil_of_le (by omega)] at h
        exact List.cons_ne_nil _ _ h.symm
      have hd1 : doc.drop (i + 1) = rest := by
        have hh : doc.drop i = doc[i] :: doc.drop (i + 1) :=
          List.drop_eq_getElem_cons hilen
        rw [hh] at h
        exact (List.cons_eq_cons.mp h).2
      have hdi : doc[i] = head := by
        have hh : doc.drop i = doc[i] :: doc.drop (i + 1) :=
          List.drop_eq_getElem_cons hilen
        rw [hh] at h
        exact (List.cons_eq_cons.mp h).1
      rw [concatSlices_drop_cons doc i hilen _
        (fun b hb => by have := splitLinesAux_mem_gt rest (i + 1) b hb; omega)]
      rw [ih hd1, hdi]
    · exact h1
    · exact h2
    · exact h3

theorem flatten_slices (doc : List Nat) (os : List Nat) :
    ∀ (a : Nat),
      ((List.range (os.length + 1)).map (fun k =>
        (doc.take ((a :: os).getD (k + 1) doc.length)).drop ((a :: os).getD k 0))).flatten
      = concatSlices doc a os := by
  induction os with
  | nil =>
    intro a
    simp [concatSlices, List.range_succ_eq_map]
  | cons b os ih =>
    intro a
    have hr : List.range (b :: os).length.succ = 0 :: (List.range (os.length + 1)).map Nat.succ := by
      simpa using List.range_succ_eq_map ((b :: os).length)
    simp only [List.length_cons] at hr ⊢
    rw [hr, List.map_cons, List.flatten_cons, List.map_map]
    have : ((List.range (os.length + 1)).map
        ((fun k => (doc.take ((a :: b :: os).getD (k + 1) doc.length)).drop
          ((a :: b :: os).getD k 0)) ∘ Nat.succ)).flatten
        = concatSlices doc b os := by
      rw [← ih b]
      congr 1
    rw [this]
    rfl

/-- C1: for every document text and caret offset, concatenating `getText i`
over all line indices `i` in order reconstructs the document exactly.  Each
line as sliced by `getText` carries its original trailing separator
(`pyOffsets` are the *end* offsets of the separator matches), so the
original separators sit between the lines of the concatenation and the
round trip is exact. -/
theorem C1_getText_roundtrip (text : List Nat) (caret : Nat) :
    ((List.range (enter text caret).nLines).map
      (fun i => getText (enter text caret) i)).flatten = text := by
  have hn : (enter text caret).nLines = (splitLinesAux text 0).length + 1 := rfl
  have hmap : ∀ i ∈ List.range (enter text caret).nLines,
      getText (enter text caret) i =
        (text.take ((0 :: splitLinesAux text 0).getD (i + 1) text.length)).drop
          ((0 :: splitLinesAux text 0).getD i 0) := by
    intro i hi
    rw [List.mem_range] at hi
    unfold getText
    rw [if_neg (Nat.not_le.mpr hi)]
    rfl
  rw [List.map_congr_left hmap, hn]
  rw [flatten_slices text (splitLinesAux text 0) 0]
  exact concatSlices_splitLinesAux text text 0 (by simp)

/-! ## Offset table invariants -/

theorem utf16Len_append (x y : List Nat) :
    utf16Len (x ++ y) = utf16Len x + utf16Len y := by
  simp [utf16Len]

theorem utf16Len_take_mono (text : List Nat) {a b : Nat} (hab : a ≤ b) :
    utf16Len (text.take a) ≤ utf16Len (text.take b) := by
  have hsplit : text.take b = text.take a ++ (text.take b).drop a := by
    have h1 : (text.take b).take a = text.take a := by
      rw [List.take_take]
      congr 1
      omega
    conv_lhs => rw [← List.take_append_drop a (text.take b)]
    rw [h1]
  rw [hsplit, utf16Len_append]
  omega

theorem move_fst_fields (fdm : FastDocumentManager) (d : Int) :
    (move fdm d).1.pyOffsets = fdm.pyOffsets ∧
    (move fdm d).1.utf16Offsets = fdm.utf16Offsets ∧
    (move fdm d).1.nLines = fdm.nLines ∧
    (move fdm d).1.documentText = fdm.documentText := by
  unfold move
  by_cases h : ((fdm.lineIndex : Int) + d < 0 ∨ (fdm.nLines : Int) ≤ (fdm.lineIndex : Int) + d)
  · simp [h]
  · simp [h]

theorem applyMoves_fields (ds : List Int) (fdm : FastDocumentManager) :
    (applyMoves fdm ds).pyOffsets = fdm.pyOffsets ∧
    (applyMoves fdm ds).utf16Offsets = fdm.utf16Offsets ∧
    (applyMoves fdm ds).nLines = fdm.nLines ∧
    (applyMoves fdm ds).documentText = fdm.documentText := by
  induction ds generalizing fdm with
  | nil => simp [applyMoves]
  | cons d ds ih =>
    have hstep := move_fst_fields fdm d
    have htail := ih ((move fdm d).1)
    simp only [applyMoves, List.foldl_cons] at *
    exact ⟨htail.1.trans hstep.1, (htail.2.1).trans hstep.2.1,
      (htail.2.2.1).trans hstep.2.2.1, (htail.2.2.2).trans hstep.2.2.2⟩

/-- C2: after snapshot construction on any document text (any mix of ASCII,
multi-byte and surrogate-pair code points), the character-offset table and
the UTF-16-offset table have the same length, both equal to the line count,
both are non-decreasing, both start with 0, and they survive any sequence
of subsequent `move` calls unchanged (`getText` and `getLineOffset` are
pure read-only queries of the snapshot and cannot change them). -/
theorem C2_offset_tables (text : List Nat) (caret : Nat) (ds : List Int) :
    ((applyMoves (enter text caret) ds).pyOffsets.length
        = (applyMoves (enter text caret) ds).nLines) ∧
    ((applyMoves (enter text caret) ds).utf16Offsets.length
        = (applyMoves (enter text caret) ds).nLines) ∧
    List.Chain' (· ≤ ·) (applyMoves (enter text caret) ds).pyOffsets ∧
    List.Chain' (· ≤ ·) (applyMoves (enter text caret) ds).utf16Offsets ∧
    (applyMoves (enter text caret) ds).pyOffsets.headD 1 = 0 ∧
    (applyMoves (enter text caret) ds).utf16Offsets.headD 1 = 0 ∧
    (applyMoves (enter text caret) ds).pyOffsets = (enter text caret).pyOffsets ∧
    (applyMoves (enter text caret) ds).utf16Offsets = (enter text caret).utf16Offsets := by
  obtain ⟨hp, hu, hn, _⟩ := applyMoves_fields ds (enter text caret)
  have hpy : (enter text caret).pyOffsets = _splitLines text := rfl
  have hu16 : (enter text caret).utf16Offsets
      = (_splitLines text).map (fun o => utf16Len (text.take o)) := rfl
  have hnl : (enter text caret).nLines = (_splitLines text).length := rfl
  have hchain : List.Chain' (· < ·) (_splitLines text) := splitLines_chain text
  have hchainLe : List.Chain' (· ≤ ·) (_splitLines text) :=
    hchain.imp (fun _ _ h => le_of_lt h)
  have hchainMap : List.Chain' (· ≤ ·)
      ((_splitLines text).map (fun o => utf16Len (text.take o))) := by
    rw [List.chain'_map]
    exact hchainLe.imp (fun _ _ h => utf16Len_take_mono text h)
  refine ⟨?_, ?_, ?_, ?_, ?_, ?_, ?_, ?_⟩
  · rw [hp, hn, hpy, hnl]
  · rw [hu, hn, hu16, hnl, List.length_map]
  · rw [hp, hpy]; exact hchainLe
  · rw [hu, hu16]; exact hchainMap
  · rw [hp, hpy]; rfl
  · rw [hu, hu16]; rfl
  · exact hp
  · exact hu


/-! ## Bisection lemmas -/

theorem takeWhile_getD_le (x : Nat) :
    ∀ (l : List Nat) (j : Nat),
      j < (l.takeWhile (fun o => decide (o ≤ x))).length → l.getD j 0 ≤ x := by
  intro l
  induction l with
  | nil => intro j h; simp at h
  | cons a rest ih =>
    intro j h
    rw [List.takeWhile_cons] at h
    by_cases ha : a ≤ x
    · rw [if_pos (by simpa using ha)] at h
      cases j with
      | zero => simpa using ha
      | succ j =>
        rw [List.length_cons] at h
        simp only [List.getD_cons_succ]
        exact ih j (by omega)
    · rw [if_neg (by simpa using ha)] at h
      simp at h

theorem takeWhile_getD_gt (x : Nat) :
    ∀ l : List Nat,
      (l.takeWhile (fun o => decide (o ≤ x))).length < l.length →
      x < l.getD (l.takeWhile (fun o => decide (o ≤ x))).length 0 := by
  intro l
  induction l with
  | nil => intro h; simp at h
  | cons a rest ih =>
    intro h
    by_cases ha : a ≤ x
    · have htw : (a :: rest).takeWhile (fun o => decide (o ≤ x))
          = a :: rest.takeWhile (fun o => decide (o ≤ x)) := by
        rw [List.takeWhile_cons, if_pos (by simpa using ha)]
      rw [htw] at h ⊢
      simp only [List.length_cons] at h ⊢
      simp only [List.getD_cons_succ]
      exact ih (by omega)
    · have htw : (a :: rest).takeWhile (fun o => decide (o ≤ x)) = [] := by
        rw [List.takeWhile_cons, if_neg (by simpa using ha)]
      rw [htw]
      simp only [List.length_nil, List.getD_cons_zero]
      omega

theorem pairwise_getD_lt (l : List Nat) (hl : List.Pairwise (· < ·) l)
    {i j : Nat} (hij : i < j) (hj : j < l.length) :
    l.getD i 0 < l.getD j 0 := by
  have hi : i < l.length := lt_trans hij hj
  rw [List.getD_eq_getElem l 0 hi, List.getD_eq_getElem l 0 hj]
  exact List.pairwise_iff_getElem.mp hl i j hi hj hij

theorem bisectRight_le_length (l : List Nat) (x : Nat) :
    bisectRight l x ≤ l.length :=
  List.Sublist.length_le (List.takeWhile_sublist _)

theorem bisectRight_pos (rest : List Nat) (x : Nat) :
    1 ≤ bisectRight (0 :: rest) x := by
  unfold bisectRight
  rw [List.takeWhile_cons]
  simp

theorem bisectRight_all (l : List Nat) (x : Nat) (h : ∀ o ∈ l, o ≤ x) :
    bisectRight l x = l.length := by
  unfold bisectRight
  rw [List.takeWhile_eq_self_iff.mpr (by intro a ha; simpa using h a ha)]

theorem caretLine_eq (py : List Nat) (x : Nat) (h : 1 ≤ bisectRight py x) :
    caretLine py x = bisectRight py x - 1 := by
  unfold caretLine
  rw [if_neg (by omega)]
  omega

/-- C4: for every snapshot and caret character offset within the document,
the bisect-based caret-line lookup lands on the unique line `i` with
`charOffsets[i] ≤ caretOffset < charOffsets[i+1]` (reading the bound past
the last table entry as the document length, exactly as `getText` does),
and on the last line when the caret offset equals the document length. -/
theorem C4_caret_line_lookup (text : List Nat) (caret : Nat)
    (_hc : caret ≤ text.length) :
    ((enter text caret).pyOffsets.getD (enter text caret).lineIndex 0 ≤ caret) ∧
    (caret < text.length →
      caret < (enter text caret).pyOffsets.getD
        ((enter text caret).lineIndex + 1) text.length) ∧
    (∀ j, j < (enter text caret).nLines →
      (enter text caret).pyOffsets.getD j 0 ≤ caret →
      caret < (enter text caret).pyOffsets.getD (j + 1) text.length →
      j = (enter text caret).lineIndex) ∧
    (caret = text.length →
      (enter text caret).lineIndex = (enter text caret).nLines - 1) := by
  have hpy : (enter text caret).pyOffsets = _splitLines text := rfl
  have hli : (enter text caret).lineIndex = caretLine (_splitLines text) caret := rfl
  have hnl : (enter text caret).nLines = (_splitLines text).length := rfl
  have hb1 : 1 ≤ bisectRight (_splitLines text) caret :=
    bisectRight_pos (splitLinesAux text 0) caret
  have hble : bisectRight (_splitLines text) caret ≤ (_splitLines text).length :=
    bisectRight_le_length _ _
  have hcl : caretLine (_splitLines text) caret
      = bisectRight (_splitLines text) caret - 1 :=
    caretLine_eq _ _ hb1
  have htw : ((_splitLines text).takeWhile (fun o => decide (o ≤ caret))).length
      = bisectRight (_splitLines text) caret := rfl
  have hpw : List.Pairwise (· < ·) (_splitLines text) :=
    List.chain'_iff_pairwise.mp (splitLines_chain text)
  refine ⟨?_, ?_, ?_, ?_⟩
  · rw [hpy, hli, hcl]
    exact takeWhile_getD_le caret (_splitLines text) _ (by omega)
  · intro hlt
    rw [hpy, hli, hcl]
    have hstep : bisectRight (_splitLines text) caret - 1 + 1
        = bisectRight (_splitLines text) caret := by omega
    rw [hstep]
    by_cases hbl : bisectRight (_splitLines text) caret < (_splitLines text).length
    · have hgt := takeWhile_getD_gt caret (_splitLines text) (by omega)
      rw [htw] at hgt
      have : (_splitLines text).getD (bisectRight (_splitLines text) caret) text.length
          = (_splitLines text).getD (bisectRight (_splitLines text) caret) 0 := by
        rw [List.getD_eq_getElem _ _ hbl, List.getD_eq_getElem _ _ hbl]
      rw [this]
      exact hgt
    · have : (_splitLines text).getD (bisectRight (_splitLines text) caret) text.length
          = text.length := List.getD_eq_default _ _ (by omega)
      rw [this]
      exact hlt
  · intro j hj hle hltj
    rw [hpy] at hle hltj
    rw [hnl] at hj
    rw [hli, hcl]
    by_contra hne
    rcases Nat.lt_or_ge j (bisectRight (_splitLines text) caret - 1) with hlt2 | hge
    · have hjlt : j + 1 < bisectRight (_splitLines text) caret := by omega
      have h1 : (_splitLines text).getD (j + 1) 0 ≤ caret :=
        takeWhile_getD_le caret (_splitLines text) (j + 1) (by omega)
      have hin : j + 1 < (_splitLines text).length := by omega
      have h2 : (_splitLines text).getD (j + 1) text.length
          = (_splitLines text).getD (j + 1) 0 := by
        rw [List.getD_eq_getElem _ _ hin, List.getD_eq_getElem _ _ hin]
      rw [h2] at hltj
      omega
    · have hgej : bisectRight (_splitLines text) caret ≤ j := by omega
      have hblt : bisectRight (_splitLines text) caret < (_splitLines text).length := by
        omega
      have hgt := takeWhile_getD_gt caret (_splitLines text) (by omega)
      rw [htw] at hgt
      have hmono : (_splitLines text).getD (bisectRight (_splitLines text) caret) 0
          ≤ (_splitLines text).getD j 0 := by
        rcases Nat.eq_or_lt_of_le hgej with heq | hlt3
        · rw [heq]
        · exact le_of_lt (pairwise_getD_lt _ hpw hlt3 hj)
      omega
  · intro hend
    have hall : bisectRight (_splitLines text) caret = (_splitLines text).length := by
      apply bisectRight_all
      intro o ho
      have := splitLines_mem_le text o ho
      omega
    rw [hli, hcl, hnl, hall]

/-- C4 witness: in the document `"a
b"` with the caret at offset 1, the
lookup's line satisfies the lower bracket bound. -/
theorem C4_caret_line_lookup_witness :
    ((1 : Nat) ≤ ([97, 10, 98] : List Nat).length) ∧
    ((enter [97, 10, 98] 1).pyOffsets.getD (enter [97, 10, 98] 1).lineIndex 0 ≤ 1) :=
  ⟨by decide, (C4_caret_line_lookup [97, 10, 98] 1 (by decide)).1⟩

/-- C5 counterexample: with the one-line document `"a"` (cursor 0, one
line), `move(0)` returns 0 although the target index `0 + 0 = 0` is inside
`[0, lineCount)`, so "returns 0 exactly when the target index would fall
outside the range" fails as a biconditional for `delta = 0`. -/
theorem C5_move_counterexample :
    (move (enter [97] 0) 0).2 = 0 ∧
    ¬(((enter [97] 0).lineIndex : Int) + 0 < 0 ∨
      ((enter [97] 0).nLines : Int) ≤ ((enter [97] 0).lineIndex : Int) + 0) := by
  decide

/-- C5 (amended): for every snapshot state with cursor in `[0, lineCount)`
and every integer `delta`, `move(delta)` never leaves the cursor outside
`[0, lineCount)`; when the target index falls outside the range it returns
0 and leaves the state unchanged, otherwise it returns `delta` and sets the
cursor to `cursor + delta`; and for every nonzero `delta` it returns 0
exactly when the target index would fall outside the range (for
`delta = 0` the returned increment is 0 even though the in-range cursor is
unchanged). -/
theorem C5_move_bounds (fdm : FastDocumentManager)
    (h : fdm.lineIndex < fdm.nLines) (delta : Int) :
    ((move fdm delta).1.lineIndex < (move fdm delta).1.nLines) ∧
    (((fdm.lineIndex : Int) + delta < 0 ∨
        (fdm.nLines : Int) ≤ (fdm.lineIndex : Int) + delta) →
      (move fdm delta).2 = 0 ∧ (move fdm delta).1 = fdm) ∧
    (¬((fdm.lineIndex : Int) + delta < 0 ∨
        (fdm.nLines : Int) ≤ (fdm.lineIndex : Int) + delta) →
      (move fdm delta).2 = delta ∧
      ((move fdm delta).1.lineIndex : Int) = (fdm.lineIndex : Int) + delta ∧
      (move fdm delta).1.nLines = fdm.nLines) ∧
    (delta ≠ 0 → ((move fdm delta).2 = 0 ↔
      ((fdm.lineIndex : Int) + delta < 0 ∨
        (fdm.nLines : Int) ≤ (fdm.lineIndex : Int) + delta))) := by
  by_cases hc : ((fdm.lineIndex : Int) + delta < 0 ∨
      (fdm.nLines : Int) ≤ (fdm.lineIndex : Int) + delta)
  · refine ⟨?_, fun _ => ?_, fun hnc => absurd hc hnc, fun _ => ?_⟩
    · simp [move, hc]
      exact h
    · simp [move, hc]
    · simp [move, hc]
  · refine ⟨?_, fun hcc => absurd hcc hc, fun _ => ?_, fun hd => ?_⟩
    · simp [move, hc]
      omega
    · simp [move, hc]
      omega
    · simp [move, hc]
      intro hz
      exact absurd hz hd

/-- C5 witness: in the two-line document `"a
b"` with the cursor on line
0, moving by 1 returns 1 and lands inside the range. -/
theorem C5_move_bounds_witness :
    ((enter [97, 10, 98] 0).lineIndex < (enter [97, 10, 98] 0).nLines) ∧
    ((move (enter [97, 10, 98] 0) 1).1.lineIndex
      < (move (enter [97, 10, 98] 0) 1).1.nLines) :=
  ⟨by decide, (C5_move_bounds (enter [97, 10, 98] 0) (by decide) 1).1⟩

/-- C6 counterexample: the line `"```a"` matches the code-fence pattern and
the code classifies it as an *opening* fence (`len("```a".strip()) = 4 > 3`)
although its trailing info text `"a"` is not longer than 3 characters, so
"opening exactly when the trailing info text is longer than 3 characters"
fails. -/
theorem C6_fence_counterexample :
    matchCodeBlock fenceShortInfo = true ∧
    fenceHasInfo fenceShortInfo = true ∧
    fenceInfoLen fenceShortInfo ≤ 3 := by decide

/-- C6 (amended): a fence line is classified as an opening fence exactly
when its *trimmed line content* is longer than 3 characters, and as a
closing fence exactly when its trimmed content is at most 3 characters
(equivalently, moving backward skips the block exactly from a closing
fence); in particular `"```python"` (trimmed length 9) classifies as
opening and `"```"` as closing. -/
theorem C6_fence_classification :
    (∀ s : List Nat, matchCodeBlock s = true →
      ((fenceHasInfo s = true ↔ 3 < (pyStrip s).length) ∧
       (fenceHasInfo s = false ↔ (pyStrip s).length ≤ 3) ∧
       (shouldSkipBlock s (-1) = false ↔ fenceHasInfo s = true))) ∧
    fenceHasInfo fencePython = true ∧ fenceHasInfo fenceBare = false := by
  refine ⟨?_, by decide, by decide⟩
  intro s _
  refine ⟨by simp [fenceHasInfo], ?_, ?_⟩
  · simp [fenceHasInfo]
  · unfold shouldSkipBlock
    rw [if_neg (by norm_num)]
    by_cases hinfo : fenceHasInfo s
    · simp [hinfo]
    · simp [hinfo]

/-- C6 witness: `"```python"` is a fence line and the amended
classification holds for it. -/
theorem C6_fence_classification_witness :
    matchCodeBlock fencePython = true ∧
    ((fenceHasInfo fencePython = true ↔ 3 < (pyStrip fencePython).length) ∧
     (fenceHasInfo fencePython = false ↔ (pyStrip fencePython).length ≤ 3) ∧
     (shouldSkipBlock fencePython (-1) = false ↔ fenceHasInfo fencePython = true)) :=
  ⟨by decide, C6_fence_classification.1 fencePython (by decide)⟩

/-- C7: parsing the table row `"| a | b\|c | d |"` yields exactly 3 cells
with trimmed texts `"a"`, `"b\|c"`, `"d"`, and in every row text a pipe
immediately preceded by a backslash is never collected as a delimiter. -/
theorem C7_parse_row_scenario :
    ((_parse_table_row scenarioRow).map TableCell.text
      = [[97], [98, 92, 124, 99], [100]]) ∧
    ((_parse_table_row scenarioRow).length = 3) ∧
    (∀ (text : List Nat) (i : Nat), i ∈ unescapedPipes text → 0 < i →
      text.getD (i - 1) 0 ≠ 92) := by
  refine ⟨by decide, by decide, ?_⟩
  intro text i hi hpos
  have hp := (List.mem_filter.mp hi).2
  simp only [Bool.and_eq_true, Bool.or_eq_true, beq_iff_eq,
    Bool.not_eq_true', beq_eq_false_iff_ne] at hp
  rcases hp.2 with h0 | hne
  · omega
  · exact hne

/-- C7 witness: the pipe at offset 11 of the scenario row is an unescaped
delimiter whose predecessor is not a backslash. -/
theorem C7_parse_row_scenario_witness :
    (11 ∈ unescapedPipes scenarioRow ∧ 0 < 11) ∧
    scenarioRow.getD 10 0 ≠ 92 :=
  ⟨by decide, C7_parse_row_scenario.2.2 scenarioRow 11 (by decide) (by decide)⟩

/-- C8: in the document `"# Title

Some text
## Sub
"` with the caret
at document start, the snapshot places the cursor on line 0, line 0 itself
matches the heading pattern, and yet the next-heading scan (which steps
once before its first match test) stops at line 3 (`"## Sub"`): the `some`
result is the Found branch, which updates the caret to that line and speaks
it, and the not-found message branch is not taken. -/
theorem C8_next_heading_scenario :
    (enter scenarioDoc 0).lineIndex = 0 ∧
    matchHeading (getText (enter scenarioDoc 0) 0) = true ∧
    scanNonFocus matchHeading 1 (enter scenarioDoc 0).nLines
      (enter scenarioDoc 0) = some 3 := by decide

theorem le_foldr_max (l : List Nat) : ∀ x ∈ l, x ≤ l.foldr max 0 := by
  induction l with
  | nil => simp
  | cons a rest ih =>
    intro x hx
    rcases List.mem_cons.mp hx with rfl | hx
    · exact le_max_left _ _
    · exact le_trans (ih x hx) (le_max_right _ _)

/-- C10: for every row text, each cell spans the text between two
consecutive unescaped pipes: a row with `n` unescaped pipes yields exactly
`max(0, n-1)` cells (`Nat` subtraction), a row with at most one unescaped
pipe yields no cells, and every cell ends at an unescaped pipe offset, so
no cell extends past the last unescaped pipe. -/
theorem C10_parse_row_cells (text : List Nat) :
    ((_parse_table_row text).length = (unescapedPipes text).length - 1) ∧
    ((unescapedPipes text).length ≤ 1 → _parse_table_row text = []) ∧
    (∀ c ∈ _parse_table_row text,
      c.stop ∈ unescapedPipes text ∧
      c.stop ≤ (unescapedPipes text).foldr max 0) := by
  refine ⟨?_, ?_, ?_⟩
  · simp [_parse_table_row]
  · intro h1
    have hz : (unescapedPipes text).length - 1 = 0 := by omega
    simp [_parse_table_row, hz]
  · intro c hc
    simp only [_parse_table_row, List.mem_map, List.mem_range] at hc
    obtain ⟨i, hi, hceq⟩ := hc
    have hstop : c.stop = (unescapedPipes text).getD (i + 1) 0 := by
      rw [← hceq]
      rfl
    have hlt : i + 1 < (unescapedPipes text).length := by omega
    have hmem : (unescapedPipes text).getD (i + 1) 0 ∈ unescapedPipes text := by
      rw [List.getD_eq_getElem _ _ hlt]
      exact List.getElem_mem hlt
    rw [hstop]
    exact ⟨hmem, le_foldr_max _ _ hmem⟩

/-- C10 witness: the middle cell of the scenario row ends at pipe offset 11,
inside the unescaped-pipe list and below its maximum. -/
theorem C10_parse_row_cells_witness :
    (mkTableCell scenarioRow 4 11 ∈ _parse_table_row scenarioRow) ∧
    ((mkTableCell scenarioRow 4 11).stop ∈ unescapedPipes scenarioRow ∧
     (mkTableCell scenarioRow 4 11).stop ≤ (unescapedPipes scenarioRow).foldr max 0) :=
  ⟨by decide, (C10_parse_row_cells scenarioRow).2.2 _ (by decide)⟩


/-- C3 (evaluation at the failing input): the next-math-formula command
handler references `patterns.RE_LATEX_MATH`, a name patterns.py never
defines, while building the arguments of `_navigate`; whatever the browse
mode state and whatever the host would have answered on the fast and legacy
paths, the handler terminates with an `AttributeError` escaping it instead
of navigating, messaging, or forwarding the gesture. -/
theorem C3_math_formula_attribute_error (browseMode : Bool)
    (fast : Except PyExn Outcome) (legacyCaret : Except PyExn Unit)
    (legacyBody : Except PyExn Outcome) :
    script_nextMathFormula browseMode fast legacyCaret legacyBody
      = Except.error PyExn.attributeError := by
  have hlook : patternsGetattr ("RE_LATEX_MATH")
      = Except.error PyExn.attributeError := by
    simp [patternsGetattr, patternsModuleNames]
  unfold script_nextMathFormula
  rw [hlook]

theorem planB_advances (doc : List Nat) (direction : Int) (ti0 ti1 : TI)
    (h : planB doc direction ti0 = (true, ti1)) :
    (direction = 1 → ti0.start < ti1.start) ∧
    (direction ≠ 1 → ti1.start < ti0.start) := by
  simp only [planB] at h
  split_ifs at h with hd h1 h2 h3 h4 h5
  · simp at h
  · simp at h
  · simp only [Prod.mk.injEq, true_and] at h
    subst h
    exact ⟨fun _ => by omega, fun hnd => absurd hd hnd⟩
  · simp at h
  · simp at h
  · simp only [Prod.mk.injEq, true_and] at h
    subst h
    exact ⟨fun hd1 => absurd hd1 hd, fun _ => by omega⟩
  · simp at h

/-- C9: the legacy line-step primitive `_step_line`, over any host line-move
behavior and any line-aligned starting position: (a) a successful step
always lands strictly past the original position in the travel direction;
(b) when the host line move reports a nonzero count but returns the
position with endpoints unchanged (a ghost move), the function's result is
exactly that of the Plan-B character-step recovery (collapse to the
trailing edge forward / leading edge backward, step one character,
re-expand to line granularity, verify advancement against the original
position and, forward only, the collapsed anchor point); (c) when the host
line move raises a boundary or communication error
(`RuntimeError`/`ValueError`/`COMError`), the step fails immediately with
the position unchanged and no recovery is attempted. -/
theorem C9_step_line_verified (doc : List Nat)
    (lineMove : TI → Int → Except PyExn (Int × TI)) (direction : Int) (ti0 : TI)
    (_hdir : direction = 1 ∨ direction = -1)
    (halign : expandLine doc ti0 = ti0) :
    (∀ ti1 : TI, _step_line doc lineMove direction ti0 = Except.ok (true, ti1) →
      (direction = 1 → ti0.start < ti1.start) ∧
      (direction = -1 → ti1.start < ti0.start)) ∧
    (∀ (r : Int) (ti1 : TI), lineMove ti0 direction = Except.ok (r, ti1) →
      r ≠ 0 → ti1 = ti0 →
      _step_line doc lineMove direction ti0
        = Except.ok (planB doc direction ti0)) ∧
    (∀ e : PyExn, lineMove ti0 direction = Except.error e →
      (e = PyExn.runtimeError ∨ e = PyExn.valueError ∨ e = PyExn.comError) →
      _step_line doc lineMove direction ti0 = Except.ok (false, ti0)) := by
  refine ⟨?_, ?_, ?_⟩
  · intro ti1 h
    cases hm : lineMove ti0 direction with
    | error e =>
      simp only [_step_line, hm] at h
      by_cases he : e = PyExn.runtimeError ∨ e = PyExn.valueError ∨ e = PyExn.comError
      · rw [if_pos he] at h
        simp at h
      · rw [if_neg he] at h
        simp at h
    | ok p =>
      obtain ⟨res, tiX⟩ := p
      simp only [_step_line, hm] at h
      by_cases hres : res = 0
      · rw [if_pos hres] at h
        simp at h
      · rw [if_neg hres] at h
        by_cases hd : direction = 1
        · rw [if_pos hd] at h
          by_cases hmov : ti0.start < (expandLine doc tiX).start
          · rw [if_pos (by simpa using hmov)] at h
            simp only [Except.ok.injEq, Prod.mk.injEq, true_and] at h
            subst h
            exact ⟨fun _ => hmov, fun hnd => absurd hd (by omega)⟩
          · rw [if_neg (by simpa using hmov)] at h
            simp only [Except.ok.injEq] at h
            have := planB_advances doc direction ti0 ti1 h
            exact ⟨this.1, fun hnd => this.2 (by omega)⟩
        · rw [if_neg hd] at h
          by_cases hmov : (expandLine doc tiX).start < ti0.start
          · rw [if_pos (by simpa using hmov)] at h
            simp only [Except.ok.injEq, Prod.mk.injEq, true_and] at h
            subst h
            exact ⟨fun hd1 => absurd hd1 hd, fun _ => hmov⟩
          · rw [if_neg (by simpa using hmov)] at h
            simp only [Except.ok.injEq] at h
            have := planB_advances doc direction ti0 ti1 h
            exact ⟨this.1, fun _ => this.2 hd⟩
  · intro r ti1 hm hr h10
    subst h10
    simp only [_step_line, hm]
    rw [if_neg hr]
    simp [halign]
  · intro e hm he
    simp only [_step_line, hm]
    rw [if_pos he]

/-- C9 witness: on the document `"ab
cd"` with the line-aligned position
`[0, 3)` and a host whose line move always reports 1 without moving, the
forward step is exactly the Plan-B recovery result. -/
theorem C9_step_line_verified_witness :
    ((1 : Int) = 1 ∨ (1 : Int) = -1) ∧
    (expandLine [97, 98, 10, 99, 100] ⟨0, 3⟩ = ⟨0, 3⟩) ∧
    (_step_line [97, 98, 10, 99, 100] (fun ti _ => Except.ok (1, ti)) 1 ⟨0, 3⟩
      = Except.ok (planB [97, 98, 10, 99, 100] 1 ⟨0, 3⟩)) :=
  ⟨Or.inl rfl, by decide,
    (C9_step_line_verified [97, 98, 10, 99, 100]
      (fun ti _ => Except.ok (1, ti)) 1 ⟨0, 3⟩ (Or.inl rfl) (by decide)).2.1
      1 ⟨0, 3⟩ rfl (by decide) rfl⟩

end MarkdownNavigator
